import Mathlib

/-!
Shallow embedding of the core of `weather_forecaster`
(`src/forecaster.rs`, `src/config.rs`).

Probability weights (`f64` in the source) are modelled as exact rationals;
the random source (`rand::rngs::ThreadRng`) is modelled as an explicit
stream of rational draws (for `Rng::random::<f64>()`) and of natural-number
draws (for index generation inside the slice shuffle), threaded through
every sampling operation.  Loops in the source that may run forever
(rejection sampling) take an explicit fuel argument and return `none` when
the fuel is exhausted; `none` also models a runtime panic (`assert!`,
`unwrap()` on `None`).
-/

/-- The closed catalog of weather conditions, in the declaration order that
`strum::EnumIter` iterates over (`src/forecaster.rs`, `enum WeatherOptions`). -/
inductive WeatherOptions where
  | Clear
  | LightCloud
  | MediumCloud
  | HeavyCloud
  | Overcast
  | LightRain
  | Rain
  | Storm
  | Thunderstorm
  | Foggy
  | FogWithRain
  | HeavyFog
  | HeavyFogWithRain
  | Hazy
  | Random
deriving DecidableEq, Repr

/-- Model of `WeatherOptions::iter()`: all variants in declaration order. -/
def WeatherOptions.iter : List WeatherOptions :=
  [.Clear, .LightCloud, .MediumCloud, .HeavyCloud, .Overcast, .LightRain,
   .Rain, .Storm, .Thunderstorm, .Foggy, .FogWithRain, .HeavyFog,
   .HeavyFogWithRain, .Hazy, .Random]

/-- Model of `WeatherOptions::get_default_probabiliy` (name kept from the source). -/
def WeatherOptions.get_default_probabiliy : WeatherOptions → ℚ
  | .Clear => 2.4 / 14
  | .LightCloud => 2.0 / 14
  | .MediumCloud => 2.0 / 14
  | .HeavyCloud => 1.0 / 14
  | .Overcast => 1.0 / 14
  | .LightRain => 0.4 / 14
  | .Rain => 0.2 / 14
  | .Storm => 0.3 / 14
  | .Thunderstorm => 0.3 / 14
  | .Foggy => 1.0 / 14
  | .FogWithRain => 0.2 / 14
  | .HeavyFog => 1.0 / 14
  | .HeavyFogWithRain => 0.2 / 14
  | .Hazy => 2.0 / 14
  | .Random => 0.0

/-- Model of `WeatherOptions::get_group`: the group of related conditions a condition
belongs to (the `weather_groups!` table in the source). -/
def WeatherOptions.get_group : WeatherOptions → List WeatherOptions
  | .Clear | .LightCloud => [.Clear, .LightCloud]
  | .MediumCloud | .HeavyCloud | .Overcast => [.MediumCloud, .HeavyCloud, .Overcast]
  | .LightRain => [.LightRain]
  | .Rain | .FogWithRain | .HeavyFogWithRain => [.Rain, .FogWithRain, .HeavyFogWithRain]
  | .Storm | .Thunderstorm => [.Storm, .Thunderstorm]
  | .Foggy | .HeavyFog | .Hazy => [.Foggy, .HeavyFog, .Hazy]
  | .Random => [.Random]

/-- Model of `WeatherOptions::rain_intensity`: 0 means dry. -/
def WeatherOptions.rain_intensity : WeatherOptions → ℕ
  | .LightRain => 1
  | .Rain => 2
  | .Storm => 3
  | .Thunderstorm => 3
  | .FogWithRain => 2
  | .HeavyFogWithRain => 2
  | _ => 0

/-- Model of `WeatherOptions::get_default_probablities()`: the full default table,
modelled as a total function (the source builds a `HashMap` with one entry
per variant). -/
def WeatherOptions.get_default_probablities : WeatherOptions → ℚ :=
  fun o => o.get_default_probabiliy

/-- The three session kinds (`enum Sessions`). -/
inductive Sessions where
  | Practice
  | Qualifying
  | Race
deriving DecidableEq, Repr

/-- The model of `rand::rngs::ThreadRng`: an infinite stream of rational
draws (for `random::<f64>()`) and of natural-number draws (for the index
choices inside the slice shuffle), with cursors marking the next unread
position of each stream. -/
structure Rng where
  floats : ℕ → ℚ
  nats : ℕ → ℕ
  fidx : ℕ
  nidx : ℕ

/-- Read the next rational draw and advance the cursor. -/
def Rng.nextFloat (r : Rng) : ℚ × Rng :=
  (r.floats r.fidx, { r with fidx := r.fidx + 1 })

/-- Read the next natural-number draw and advance the cursor. -/
def Rng.nextNat (r : Rng) : ℕ × Rng :=
  (r.nats r.nidx, { r with nidx := r.nidx + 1 })

/-- The user configuration relevant to the core
(`struct Config` in `src/config.rs`): a partial probability map and a
partial slot-count map. -/
structure Config where
  probabilities : WeatherOptions → Option ℚ
  weather_slots : Sessions → Option ℕ

/-- The default slot counts from `Config::default()`:
Practice 4, Qualifying 2, Race 4. -/
def defaultWeatherSlots : Sessions → ℕ
  | .Practice => 4
  | .Qualifying => 2
  | .Race => 4

/-- Model of `Config::default()`: every catalog condition mapped to its default
probability, the default slot counts. -/
def Config.default : Config :=
  { probabilities := fun o => some o.get_default_probabiliy
    weather_slots := fun s => some (defaultWeatherSlots s) }

/-- Model of `config.probabilities.values().sum()` in `WeatherForecaster::new`:
the sum of the user-specified weights. -/
def accumulated_probability (cfg : Config) : ℚ :=
  (WeatherOptions.iter.map (fun o => (cfg.probabilities o).getD 0)).sum

/-- Model of `config.probabilities.len()`: the number of conditions the user assigned
a weight to. -/
def configProbLen (cfg : Config) : ℕ :=
  (WeatherOptions.iter.filter (fun o => (cfg.probabilities o).isSome)).length

/-- Model of `missing_entries = WeatherOptions::iter().len() - config.probabilities.len()`. -/
def missing_entries (cfg : Config) : ℕ :=
  WeatherOptions.iter.length - configProbLen cfg

/-- Model of `f64::clamp` on rationals: `x.clamp(lo, hi)`. -/
def qclamp (x lo hi : ℚ) : ℚ := max lo (min x hi)

/-- Model of `remaining_probability = (1.0 - accumulated_probability).clamp(0.0, 1.0)`. -/
def remaining_probability (cfg : Config) : ℚ :=
  qclamp (1 - accumulated_probability cfg) 0 1

/-- Model of `remaining_options_probability`: the fill weight for unspecified
conditions. -/
def remaining_options_probability (cfg : Config) : ℚ :=
  if missing_entries cfg ≠ 0 then
    remaining_probability cfg / (missing_entries cfg : ℚ)
  else 0

/-- The table-building loop in `WeatherForecaster::new`: start from the
default table and, for every catalog condition in iteration order, insert
the user's weight when present, the fill weight otherwise. -/
def buildInitialProbabilities (cfg : Config) : WeatherOptions → ℚ :=
  WeatherOptions.iter.foldl
    (fun m o => Function.update m o ((cfg.probabilities o).getD (remaining_options_probability cfg)))
    WeatherOptions.get_default_probablities

/-- The slot-sanitization loop in `WeatherForecaster::new`: merge the
configured slot counts with the defaults and clamp each into `[1, 4]`. -/
def sanitizeWeatherSlots (cfg : Config) : Sessions → ℕ :=
  fun s => min 4 (max 1 ((cfg.weather_slots s).getD (defaultWeatherSlots s)))

/-- The sum of a probability table over the whole catalog
(`self.probabilities.values().sum()`). -/
def tableSum (t : WeatherOptions → ℚ) : ℚ :=
  (WeatherOptions.iter.map t).sum

/-- Model of `WeatherForecaster::normalize_probabilities`: assert the sum is at most
1 (`none` models the `assert!` panic), then rescale by `1.0 / sum`. -/
def normalize_probabilities (t : WeatherOptions → ℚ) : Option (WeatherOptions → ℚ) :=
  let s := tableSum t
  if s ≤ 1 then some (fun o => t o * (1 / s)) else none

/-- The forecaster state: the sanitized, normalized probability table and
the sanitized slot counts (the `rng` field is threaded separately). -/
structure WeatherForecaster where
  probabilities : WeatherOptions → ℚ
  weather_slots : Sessions → ℕ

/-- Model of `WeatherForecaster::new`: sanitize probabilities and slots, then
normalize.  `none` models the `assert!` panic inside
`normalize_probabilities`. -/
def WeatherForecaster.new (cfg : Config) : Option WeatherForecaster :=
  (normalize_probabilities (buildInitialProbabilities cfg)).map
    (fun t => { probabilities := t, weather_slots := sanitizeWeatherSlots cfg })

/-- The catalog walk inside `generate_weather_option`: accumulate weights in
iteration order; the first condition whose cumulative weight exceeds the
draw is selected; if none is, the initializer `Clear` stands. -/
def selectOption (t : WeatherOptions → ℚ) (r : ℚ) : List WeatherOptions → ℚ → WeatherOptions
  | [], _ => WeatherOptions.Clear
  | o :: rest, cur =>
    let cur' := cur + t o
    if r < cur' then o else selectOption t r rest cur'

/-- Model of `WeatherForecaster::generate_weather_option`: rejection sampling — draw,
walk the catalog, and if rain is not allowed and the candidate is wet, retry
with the next draw.  Fuel bounds the number of retries; `none` means the
fuel ran out (the source loops forever instead). -/
def generate_weather_option (t : WeatherOptions → ℚ) (might_rain : Bool) :
    ℕ → Rng → Option (WeatherOptions × Rng)
  | 0, _ => none
  | fuel + 1, rng =>
    let d := rng.nextFloat
    let selected := selectOption t d.1 WeatherOptions.iter 0
    if might_rain || selected.rain_intensity = 0 then some (selected, d.2)
    else generate_weather_option t might_rain fuel d.2

/-- Model of `WeatherForecaster::generate_weather_option_in_group`: redraw (rain
allowed) until the result lies in the given condition's group. -/
def generate_weather_option_in_group (t : WeatherOptions → ℚ) (w : WeatherOptions) :
    ℕ → Rng → Option (WeatherOptions × Rng)
  | 0, _ => none
  | fuel + 1, rng =>
    match generate_weather_option t true (fuel + 1) rng with
    | none => none
    | some (o, rng') =>
      if o ∈ w.get_group then some (o, rng')
      else generate_weather_option_in_group t w fuel rng'

/-- Model of `WeatherForecaster::get_available_weather_options`: the number of
catalog conditions with positive weight that are dry or allowed to rain. -/
def get_available_weather_options (t : WeatherOptions → ℚ) (with_rain : Bool) : ℕ :=
  (WeatherOptions.iter.filter
    (fun o => (decide (o.rain_intensity = 0) || with_rain) && decide (0 < t o))).length

/-- The duplicate-skipping accumulation loop in
`generate_single_session_forecast` (the branch with enough distinct usable
options): keep drawing, appending only unseen conditions, until the
sequence reaches the slot count. -/
def fillSlotsNoDup (t : WeatherOptions → ℚ) (might_rain : Bool) (slots : ℕ) :
    ℕ → List WeatherOptions → Rng → Option (List WeatherOptions × Rng)
  | 0, acc, rng => if slots ≤ acc.length then some (acc, rng) else none
  | fuel + 1, acc, rng =>
    if slots ≤ acc.length then some (acc, rng)
    else
      match generate_weather_option t might_rain (fuel + 1) rng with
      | none => none
      | some (o, rng') =>
        fillSlotsNoDup t might_rain slots fuel
          (if o ∈ acc then acc else acc ++ [o]) rng'

/-- The fallback branch of `generate_single_session_forecast`: draw
`slots` times independently with replacement. -/
def drawWithReplacement (t : WeatherOptions → ℚ) (might_rain : Bool) :
    ℕ → ℕ → Rng → Option (List WeatherOptions × Rng)
  | 0, _, rng => some ([], rng)
  | n + 1, fuel, rng =>
    match generate_weather_option t might_rain fuel rng with
    | none => none
    | some (o, rng') =>
      match drawWithReplacement t might_rain n fuel rng' with
      | none => none
      | some (l, rng'') => some (o :: l, rng'')

/-- Model of `WeatherForecaster::generate_single_session_forecast`. -/
def generate_single_session_forecast (t : WeatherOptions → ℚ) (weather_slots : ℕ)
    (might_rain : Bool) (fuel : ℕ) (rng : Rng) : Option (List WeatherOptions × Rng) :=
  if weather_slots ≤ get_available_weather_options t might_rain then
    fillSlotsNoDup t might_rain weather_slots fuel [] rng
  else
    drawWithReplacement t might_rain weather_slots fuel rng

/-- Model of `struct WeatherForecast`: the per-session forecast map, modelled as a
total function into `Option` (a `HashMap` in the source). -/
structure WeatherForecast where
  forecast : Sessions → Option (List WeatherOptions)

/-- Model of `WeatherForecast::default()`: the empty map. -/
def WeatherForecast.empty : WeatherForecast :=
  { forecast := fun _ => none }

/-- Model of `forecast.forecast.insert(session, value)`. -/
def WeatherForecast.insert (f : WeatherForecast) (s : Sessions)
    (l : List WeatherOptions) : WeatherForecast :=
  { forecast := fun s' => if s' = s then some l else f.forecast s' }

/-- Model of `Iterator::max_by_key` over a list: a left fold that keeps the current
maximum and replaces it on ties, so the last maximal element wins, as in
Rust. -/
def maxByKey (key : WeatherOptions → ℕ) (l : List WeatherOptions) :
    Option WeatherOptions :=
  l.foldl
    (fun acc x =>
      match acc with
      | none => some x
      | some a => if key a ≤ key x then some x else some a)
    none

/-- The `race_rain` computation in `generate_forecast`: look up the Race
entry, take its maximum-rain-intensity condition (`unwrap` on an empty
entry panics — outer `none`), and keep it only when it actually rains. -/
def raceRainOf (f : WeatherForecast) : Option (Option WeatherOptions) :=
  match f.forecast Sessions.Race with
  | none => some none
  | some opts =>
    match maxByKey WeatherOptions.rain_intensity opts with
    | none => none
    | some m => some (if 0 < m.rain_intensity then some m else none)

/-- The Race section of `generate_forecast`: when Race is requested, sample
its session and record it. -/
def racePhase (st : WeatherForecaster) (sessions : List Sessions) (fuel : ℕ)
    (rng : Rng) : Option (WeatherForecast × Rng) :=
  if Sessions.Race ∈ sessions then
    match generate_single_session_forecast st.probabilities
        (st.weather_slots Sessions.Race) true fuel rng with
    | none => none
    | some (l, rng') => some (WeatherForecast.empty.insert Sessions.Race l, rng')
  else some (WeatherForecast.empty, rng)

/-- The Qualifying section of `generate_forecast`: when Qualifying is
requested, sample its session with rain allowed iff the race rained. -/
def qualiPhase (st : WeatherForecaster) (sessions : List Sessions)
    (might_rain : Bool) (fuel : ℕ) (p : WeatherForecast × Rng) :
    Option (WeatherForecast × Rng) :=
  if Sessions.Qualifying ∈ sessions then
    match generate_single_session_forecast st.probabilities
        (st.weather_slots Sessions.Qualifying) might_rain fuel p.2 with
    | none => none
    | some (l, rng') => some (p.1.insert Sessions.Qualifying l, rng')
  else some p

/-- Model of `race_rain.map(|option| self.generate_weather_option_in_group(option))`:
the Practice pre-draw, performed whenever the race rained — the source runs
it before (and regardless of) the check that Practice was requested. -/
def practiceRainDraw (t : WeatherOptions → ℚ) (race_rain : Option WeatherOptions)
    (fuel : ℕ) (rng : Rng) : Option (Option WeatherOptions × Rng) :=
  match race_rain with
  | none => some (none, rng)
  | some o =>
    match generate_weather_option_in_group t o fuel rng with
    | none => none
    | some (w, rng') => some (some w, rng')

/-- Modelled from the contract of `rand::seq::SliceRandom::shuffle` (an
external crate, not part of this repository): a Fisher-Yates style shuffle
that at each step removes the element at a drawn index and places it next,
consuming one natural-number draw per step.  Its observable contract — the
output is a permutation of the input — is what the repository relies on. -/
def shuffleGo : ℕ → List WeatherOptions → Rng → List WeatherOptions × Rng
  | 0, l, rng => (l, rng)
  | _ + 1, [], rng => ([], rng)
  | n + 1, x :: xs, rng =>
    let d := rng.nextNat
    let j := d.1 % (x :: xs).length
    let rest := shuffleGo n ((x :: xs).eraseIdx j) d.2
    ((x :: xs).getD j WeatherOptions.Clear :: rest.1, rest.2)

/-- Model of `practice.shuffle(&mut self.rng)`. -/
def sliceShuffle (l : List WeatherOptions) (rng : Rng) : List WeatherOptions × Rng :=
  shuffleGo l.length l rng

/-- The Practice section of `generate_forecast`: when Practice is requested,
sample its session (rain allowed iff the race rained); when a pre-drawn rain
condition exists, overwrite the last slot with it (`last_mut().unwrap()`
panics on an empty sequence — `none`) and shuffle the whole sequence. -/
def practicePhase (st : WeatherForecaster) (sessions : List Sessions)
    (might_rain : Bool) (practice_rain : Option WeatherOptions) (fuel : ℕ)
    (p : WeatherForecast × Rng) : Option (WeatherForecast × Rng) :=
  if Sessions.Practice ∈ sessions then
    match generate_single_session_forecast st.probabilities
        (st.weather_slots Sessions.Practice) might_rain fuel p.2 with
    | none => none
    | some (l, rng') =>
      match practice_rain with
      | none => some (p.1.insert Sessions.Practice l, rng')
      | some w =>
        if l.isEmpty then none
        else
          let sh := sliceShuffle (l.dropLast ++ [w]) rng'
          some (p.1.insert Sessions.Practice sh.1, sh.2)
  else some p

/-- Model of `WeatherForecaster::generate_forecast`: Race, then the `race_rain`
determination, then Qualifying, then the unconditional Practice pre-draw,
then Practice. -/
def generate_forecast (st : WeatherForecaster) (sessions : List Sessions)
    (fuel : ℕ) (rng : Rng) : Option (WeatherForecast × Rng) :=
  (racePhase st sessions fuel rng).bind fun p1 =>
  (raceRainOf p1.1).bind fun race_rain =>
  (qualiPhase st sessions race_rain.isSome fuel p1).bind fun p2 =>
  (practiceRainDraw st.probabilities race_rain fuel p2.2).bind fun pr =>
  practicePhase st sessions race_rain.isSome pr.1 fuel (p2.1, pr.2)

/-! ### Lemmas about the single-draw sampler -/

/-- A draw with rain disallowed only ever returns a dry condition: the
rejection loop re-draws until `rain_intensity == 0`. -/
theorem generate_weather_option_dry {t : WeatherOptions → ℚ} :
    ∀ {fuel : ℕ} {rng : Rng} {o : WeatherOptions} {rng' : Rng},
      generate_weather_option t false fuel rng = some (o, rng') →
      o.rain_intensity = 0 := by
  intro fuel
  induction fuel with
  | zero => intro rng o rng' h; simp [generate_weather_option] at h
  | succ n ih =>
    intro rng o rng' h
    rw [generate_weather_option] at h
    by_cases hd : (selectOption t (rng.nextFloat.1) WeatherOptions.iter 0).rain_intensity = 0
    · rw [if_pos (by simp [hd])] at h
      injection h with hp
      have hp1 : selectOption t rng.nextFloat.1 WeatherOptions.iter 0 = o :=
        congrArg Prod.fst hp
      exact hp1 ▸ hd
    · rw [if_neg (by simp [hd])] at h
      exact ih h

/-- The group-constrained draw only ever returns a member of the group. -/
theorem generate_weather_option_in_group_mem {t : WeatherOptions → ℚ}
    {w : WeatherOptions} :
    ∀ {fuel : ℕ} {rng : Rng} {o : WeatherOptions} {rng' : Rng},
      generate_weather_option_in_group t w fuel rng = some (o, rng') →
      o ∈ w.get_group := by
  intro fuel
  induction fuel with
  | zero => intro rng o rng' h; simp [generate_weather_option_in_group] at h
  | succ n ih =>
    intro rng o rng' h
    rw [generate_weather_option_in_group] at h
    cases hg : generate_weather_option t true (n + 1) rng with
    | none => rw [hg] at h; exact absurd h (by simp)
    | some p =>
      rw [hg] at h
      obtain ⟨o1, rng1⟩ := p
      dsimp only at h
      by_cases hm : o1 ∈ w.get_group
      · rw [if_pos hm] at h
        injection h with hp
        have hp1 : o1 = o := congrArg Prod.fst hp
        exact hp1 ▸ hm
      · rw [if_neg hm] at h
        exact ih h

/-! ### Lemmas about the session sampler -/

/-- Invariant of the duplicate-skipping loop: starting from an accumulator
no longer than the slot count, a successful run returns a sequence of
exactly the slot count, preserves freedom from duplicates, and adds only
freshly drawn conditions (dry ones when rain is disallowed). -/
theorem fillSlotsNoDup_spec {t : WeatherOptions → ℚ} {b : Bool} {slots : ℕ} :
    ∀ {fuel : ℕ} {acc : List WeatherOptions} {rng : Rng}
      {l : List WeatherOptions} {rng' : Rng},
      fillSlotsNoDup t b slots fuel acc rng = some (l, rng') →
      acc.length ≤ slots →
      l.length = slots ∧ (acc.Nodup → l.Nodup) ∧
        ∀ c ∈ l, c ∈ acc ∨ (b = false → c.rain_intensity = 0) := by
  intro fuel
  induction fuel with
  | zero =>
    intro acc rng l rng' h hle
    rw [fillSlotsNoDup] at h
    by_cases hs : slots ≤ acc.length
    · rw [if_pos hs] at h
      injection h with hp
      have h1 : acc = l := congrArg Prod.fst hp
      subst h1
      exact ⟨le_antisymm hle hs, fun hn => hn, fun c hc => Or.inl hc⟩
    · rw [if_neg hs] at h
      exact absurd h (by simp)
  | succ n ih =>
    intro acc rng l rng' h hle
    rw [fillSlotsNoDup] at h
    by_cases hs : slots ≤ acc.length
    · rw [if_pos hs] at h
      injection h with hp
      have h1 : acc = l := congrArg Prod.fst hp
      subst h1
      exact ⟨le_antisymm hle hs, fun hn => hn, fun c hc => Or.inl hc⟩
    · rw [if_neg hs] at h
      cases hg : generate_weather_option t b (n + 1) rng with
      | none => rw [hg] at h; exact absurd h (by simp)
      | some p =>
        obtain ⟨o, rng1⟩ := p
        rw [hg] at h
        dsimp only at h
        have hlt : acc.length < slots := lt_of_not_le hs
        have hle' : (if o ∈ acc then acc else acc ++ [o]).length ≤ slots := by
          by_cases hmem : o ∈ acc
          · rw [if_pos hmem]; exact le_of_lt hlt
          · rw [if_neg hmem]; simpa using hlt
        obtain ⟨hlen, hnd, hmem'⟩ := ih h hle'
        refine ⟨hlen, ?_, ?_⟩
        · intro hn
          apply hnd
          by_cases hmem : o ∈ acc
          · rwa [if_pos hmem]
          · rw [if_neg hmem]
            refine List.Nodup.append hn (List.nodup_singleton o) ?_
            intro x hx hxo
            rw [List.mem_singleton] at hxo
            exact hmem (hxo ▸ hx)
        · intro c hc
          rcases hmem' c hc with hin | hdry
          · by_cases hmem : o ∈ acc
            · rw [if_pos hmem] at hin; exact Or.inl hin
            · rw [if_neg hmem] at hin
              rcases List.mem_append.mp hin with hin' | hin'
              · exact Or.inl hin'
              · refine Or.inr fun hb => ?_
                have : c = o := by simpa using hin'
                subst hb
                exact this ▸ generate_weather_option_dry hg
          · exact Or.inr hdry

/-- A successful independent redraw returns exactly `n` conditions, all dry
when rain is disallowed. -/
theorem drawWithReplacement_spec {t : WeatherOptions → ℚ} {b : Bool} :
    ∀ {n fuel : ℕ} {rng : Rng} {l : List WeatherOptions} {rng' : Rng},
      drawWithReplacement t b n fuel rng = some (l, rng') →
      l.length = n ∧ (b = false → ∀ c ∈ l, c.rain_intensity = 0) := by
  intro n
  induction n with
  | zero =>
    intro fuel rng l rng' h
    rw [drawWithReplacement] at h
    injection h with hp
    have h1 : ([] : List WeatherOptions) = l := congrArg Prod.fst hp
    subst h1
    exact ⟨rfl, fun _ c hc => absurd hc (List.not_mem_nil c)⟩
  | succ m ih =>
    intro fuel rng l rng' h
    rw [drawWithReplacement] at h
    cases hg : generate_weather_option t b fuel rng with
    | none => rw [hg] at h; exact absurd h (by simp)
    | some p =>
      obtain ⟨o, rng1⟩ := p
      rw [hg] at h
      dsimp only at h
      cases hr : drawWithReplacement t b m fuel rng1 with
      | none => rw [hr] at h; exact absurd h (by simp)
      | some q =>
        obtain ⟨l1, rng2⟩ := q
        rw [hr] at h
        dsimp only at h
        injection h with hp
        have h1 : o :: l1 = l := congrArg Prod.fst hp
        subst h1
        obtain ⟨hlen, hdry⟩ := ih hr
        refine ⟨by simp [hlen], fun hb c hc => ?_⟩
        rcases List.mem_cons.mp hc with hco | hcl
        · subst hb; exact hco ▸ generate_weather_option_dry hg
        · exact hdry hb c hcl

/-- Spec of `generate_single_session_forecast` on success: the sequence has exactly
the requested slot count, is duplicate-free when enough distinct usable
options exist, and is all-dry when rain is disallowed. -/
theorem generate_single_session_forecast_spec {t : WeatherOptions → ℚ}
    {slots : ℕ} {b : Bool} {fuel : ℕ} {rng : Rng} {l : List WeatherOptions}
    {rng' : Rng}
    (h : generate_single_session_forecast t slots b fuel rng = some (l, rng')) :
    l.length = slots ∧
      (slots ≤ get_available_weather_options t b → l.Nodup) ∧
      (b = false → ∀ c ∈ l, c.rain_intensity = 0) := by
  rw [generate_single_session_forecast] at h
  by_cases hs : slots ≤ get_available_weather_options t b
  · rw [if_pos hs] at h
    obtain ⟨hlen, hnd, hmem⟩ := fillSlotsNoDup_spec h (by simp)
    refine ⟨hlen, fun _ => hnd List.nodup_nil, fun hb c hc => ?_⟩
    rcases hmem c hc with hin | hdry
    · exact absurd hin (List.not_mem_nil c)
    · exact hdry hb
  · rw [if_neg hs] at h
    obtain ⟨hlen, hdry⟩ := drawWithReplacement_spec h
    exact ⟨hlen, fun hs' => absurd hs' hs, hdry⟩

/-! ### Lemmas about the maximum-by-key fold -/

/-- The fold underlying `maxByKey`: a `some` result is an element of the
list (or the incoming accumulator) and its key dominates every key seen. -/
theorem maxByKey_fold_spec {key : WeatherOptions → ℕ} :
    ∀ (l : List WeatherOptions) (acc : Option WeatherOptions)
      (m : WeatherOptions),
      l.foldl
        (fun acc x =>
          match acc with
          | none => some x
          | some a => if key a ≤ key x then some x else some a)
        acc = some m →
      (m ∈ l ∨ acc = some m) ∧ (∀ x ∈ l, key x ≤ key m) ∧
        (∀ a, acc = some a → key a ≤ key m) := by
  intro l
  induction l with
  | nil =>
    intro acc m h
    simp only [List.foldl_nil] at h
    exact ⟨Or.inr h, fun x hx => absurd hx (List.not_mem_nil x),
      fun a ha => le_of_eq (by rw [ha] at h; injection h with h'; rw [h'])⟩
  | cons y ys ih =>
    intro acc m h
    rw [List.foldl_cons] at h
    cases acc with
    | none =>
      obtain ⟨hm, hall, hacc⟩ := ih (some y) m h
      refine ⟨?_, ?_, fun a ha => absurd ha (by simp)⟩
      · rcases hm with hm' | hm'
        · exact Or.inl (List.mem_cons_of_mem y hm')
        · exact Or.inl (by injection hm' with h'; exact h' ▸ List.mem_cons_self y ys)
      · intro x hx
        rcases List.mem_cons.mp hx with hx' | hx'
        · exact hx' ▸ hacc y rfl
        · exact hall x hx'
    | some a =>
      dsimp only at h
      by_cases hk : key a ≤ key y
      · rw [if_pos hk] at h
        obtain ⟨hm, hall, hacc⟩ := ih (some y) m h
        refine ⟨?_, ?_, ?_⟩
        · rcases hm with hm' | hm'
          · exact Or.inl (List.mem_cons_of_mem y hm')
          · exact Or.inl (by injection hm' with h'; exact h' ▸ List.mem_cons_self y ys)
        · intro x hx
          rcases List.mem_cons.mp hx with hx' | hx'
          · exact hx' ▸ hacc y rfl
          · exact hall x hx'
        · intro b hb
          injection hb with hb'
          exact le_trans (hb' ▸ hk) (hacc y rfl)
      · rw [if_neg hk] at h
        obtain ⟨hm, hall, hacc⟩ := ih (some a) m h
        refine ⟨?_, ?_, ?_⟩
        · rcases hm with hm' | hm'
          · exact Or.inl (List.mem_cons_of_mem y hm')
          · exact Or.inr hm'
        · intro x hx
          rcases List.mem_cons.mp hx with hx' | hx'
          · exact hx' ▸ le_trans (le_of_not_le hk) (hacc a rfl)
          · exact hall x hx'
        · exact hacc

/-- The fold `maxByKey` returns a maximal element of the list. -/
theorem maxByKey_spec {key : WeatherOptions → ℕ} {l : List WeatherOptions}
    {m : WeatherOptions} (h : maxByKey key l = some m) :
    m ∈ l ∧ ∀ x ∈ l, key x ≤ key m := by
  obtain ⟨hm, hall, _⟩ := maxByKey_fold_spec l none m h
  rcases hm with hm' | hm'
  · exact ⟨hm', hall⟩
  · exact absurd hm' (by simp)

/-! ### Lemmas about the shuffle -/

/-- Each step of the shuffle produces a permutation of its input. -/
theorem shuffleGo_perm :
    ∀ (n : ℕ) (l : List WeatherOptions) (rng : Rng),
      (shuffleGo n l rng).1.Perm l := by
  intro n
  induction n with
  | zero => intro l rng; rw [shuffleGo]
  | succ m ih =>
    intro l rng
    cases l with
    | nil => rw [shuffleGo]
    | cons x xs =>
      rw [shuffleGo]
      dsimp only
      set L := x :: xs with hL
      set j := rng.nextNat.1 % L.length with hj
      have hjlt : j < L.length := Nat.mod_lt _ (by simp [hL])
      have hget : L.getD j WeatherOptions.Clear = L[j] := List.getD_eq_getElem L _ hjlt
      have hperm : (L[j] :: L.eraseIdx j).Perm L := by
        refine ((List.erase_getElem hjlt).cons L[j]).symm.trans ?_
        exact (List.perm_cons_erase (List.getElem_mem hjlt)).symm
      exact hget ▸ ((ih (L.eraseIdx j) rng.nextNat.2).cons (L.getD j .Clear)).trans
        (hget ▸ hperm)

/-- The shuffled sequence is a permutation of the original. -/
theorem sliceShuffle_perm (l : List WeatherOptions) (rng : Rng) :
    (sliceShuffle l rng).1.Perm l :=
  shuffleGo_perm l.length l rng

/-! ### Lemmas about the forecast phases -/

theorem WeatherForecast.insert_same (f : WeatherForecast) (s : Sessions)
    (l : List WeatherOptions) : (f.insert s l).forecast s = some l := by
  simp [WeatherForecast.insert]

theorem WeatherForecast.insert_other (f : WeatherForecast) {s s' : Sessions}
    (l : List WeatherOptions) (h : s' ≠ s) :
    (f.insert s l).forecast s' = f.forecast s' := by
  simp [WeatherForecast.insert, h]

/-- Inversion for the Race phase. -/
theorem racePhase_spec {st : WeatherForecaster} {sessions : List Sessions}
    {fuel : ℕ} {rng : Rng} {p : WeatherForecast × Rng}
    (h : racePhase st sessions fuel rng = some p) :
    p.1.forecast Sessions.Qualifying = none ∧
      p.1.forecast Sessions.Practice = none ∧
      (Sessions.Race ∈ sessions →
        ∃ l, generate_single_session_forecast st.probabilities
            (st.weather_slots Sessions.Race) true fuel rng = some (l, p.2) ∧
          p.1.forecast Sessions.Race = some l) ∧
      (Sessions.Race ∉ sessions → p = (WeatherForecast.empty, rng)) := by
  rw [racePhase] at h
  by_cases hr : Sessions.Race ∈ sessions
  · rw [if_pos hr] at h
    cases hg : generate_single_session_forecast st.probabilities
        (st.weather_slots Sessions.Race) true fuel rng with
    | none => rw [hg] at h; exact absurd h (by simp)
    | some q =>
      obtain ⟨l, rng1⟩ := q
      rw [hg] at h
      dsimp only at h
      injection h with hp
      subst hp
      refine ⟨WeatherForecast.insert_other _ _ (by simp), 
        WeatherForecast.insert_other _ _ (by simp), 
        fun _ => ⟨l, rfl, WeatherForecast.insert_same _ _ _⟩, 
        fun hn => absurd hr hn⟩
  · rw [if_neg hr] at h
    injection h with hp
    subst hp
    exact ⟨rfl, rfl, fun hm => absurd hm hr, fun _ => rfl⟩

/-- Inversion for the Qualifying phase. -/
theorem qualiPhase_spec {st : WeatherForecaster} {sessions : List Sessions}
    {mr : Bool} {fuel : ℕ} {p q : WeatherForecast × Rng}
    (h : qualiPhase st sessions mr fuel p = some q) :
    (∀ s, s ≠ Sessions.Qualifying → q.1.forecast s = p.1.forecast s) ∧
      (Sessions.Qualifying ∈ sessions →
        ∃ l, generate_single_session_forecast st.probabilities
            (st.weather_slots Sessions.Qualifying) mr fuel p.2 = some (l, q.2) ∧
          q.1.forecast Sessions.Qualifying = some l) ∧
      (Sessions.Qualifying ∉ sessions → q = p) := by
  rw [qualiPhase] at h
  by_cases hq : Sessions.Qualifying ∈ sessions
  · rw [if_pos hq] at h
    cases hg : generate_single_session_forecast st.probabilities
        (st.weather_slots Sessions.Qualifying) mr fuel p.2 with
    | none => rw [hg] at h; exact absurd h (by simp)
    | some q1 =>
      obtain ⟨l, rng1⟩ := q1
      rw [hg] at h
      dsimp only at h
      injection h with hp
      subst hp
      exact ⟨fun s hs => WeatherForecast.insert_other _ _ hs, 
        fun _ => ⟨l, rfl, WeatherForecast.insert_same _ _ _⟩, 
        fun hn => absurd hq hn⟩
  · rw [if_neg hq] at h
    injection h with hp
    subst hp
    exact ⟨fun _ _ => rfl, fun hm => absurd hm hq, fun _ => rfl⟩

/-- Inversion for the Practice phase. -/
theorem practicePhase_spec {st : WeatherForecaster} {sessions : List Sessions}
    {mr : Bool} {pr : Option WeatherOptions} {fuel : ℕ}
    {p q : WeatherForecast × Rng}
    (h : practicePhase st sessions mr pr fuel p = some q) :
    (∀ s, s ≠ Sessions.Practice → q.1.forecast s = p.1.forecast s) ∧
      (Sessions.Practice ∈ sessions →
        ∃ l rng1, generate_single_session_forecast st.probabilities
            (st.weather_slots Sessions.Practice) mr fuel p.2 = some (l, rng1) ∧
          ((pr = none ∧ q.1.forecast Sessions.Practice = some l ∧ q.2 = rng1) ∨
            ∃ w, pr = some w ∧ l ≠ [] ∧
              q.1.forecast Sessions.Practice =
                some (sliceShuffle (l.dropLast ++ [w]) rng1).1 ∧
              q.2 = (sliceShuffle (l.dropLast ++ [w]) rng1).2)) ∧
      (Sessions.Practice ∉ sessions → q = p) := by
  rw [practicePhase] at h
  by_cases hq : Sessions.Practice ∈ sessions
  · rw [if_pos hq] at h
    cases hg : generate_single_session_forecast st.probabilities
        (st.weather_slots Sessions.Practice) mr fuel p.2 with
    | none => rw [hg] at h; exact absurd h (by simp)
    | some q1 =>
      obtain ⟨l, rng1⟩ := q1
      rw [hg] at h
      dsimp only at h
      cases pr with
      | none =>
        dsimp only at h
        injection h with hp
        subst hp
        exact ⟨fun s hs => WeatherForecast.insert_other _ _ hs, 
          fun _ => ⟨l, rng1, rfl, Or.inl ⟨rfl, WeatherForecast.insert_same _ _ _, rfl⟩⟩, 
          fun hn => absurd hq hn⟩
      | some w =>
        dsimp only at h
        by_cases he : l.isEmpty
        · rw [if_pos he] at h; exact absurd h (by simp)
        · rw [if_neg he] at h
          injection h with hp
          subst hp
          refine ⟨fun s hs => WeatherForecast.insert_other _ _ hs, 
            fun _ => ⟨l, rng1, rfl, Or.inr ⟨w, rfl, ?_, 
              WeatherForecast.insert_same _ _ _, rfl⟩⟩, 
            fun hn => absurd hq hn⟩
          intro hnil
          exact he (by simp [hnil])
  · rw [if_neg hq] at h
    injection h with hp
    subst hp
    exact ⟨fun _ _ => rfl, fun hm => absurd hm hq, fun _ => rfl⟩

/-- If the Race entry (when present) is all dry, the `race_rain`
determination yields `none`. -/
theorem raceRainOf_none_of_dry {f : WeatherForecast} {rr : Option WeatherOptions}
    (h : raceRainOf f = some rr)
    (hdry : ∀ l, f.forecast Sessions.Race = some l →
      ∀ c ∈ l, c.rain_intensity = 0) :
    rr = none := by
  rw [raceRainOf] at h
  cases hf : f.forecast Sessions.Race with
  | none => rw [hf] at h; injection h with h'; exact h'.symm
  | some opts =>
    rw [hf] at h
    dsimp only at h
    cases hm : maxByKey WeatherOptions.rain_intensity opts with
    | none => rw [hm] at h; exact absurd h (by simp)
    | some m =>
      rw [hm] at h
      dsimp only at h
      have hmem := (maxByKey_spec hm).1
      have hz : m.rain_intensity = 0 := hdry opts hf m hmem
      rw [if_neg (by rw [hz]; exact lt_irrefl 0)] at h
      injection h with h'
      exact h'.symm

/-- If the Race entry contains a rainy condition, the `race_rain`
determination yields the maximum-rain-intensity condition. -/
theorem raceRainOf_some_of_rain {f : WeatherForecast} {rr : Option WeatherOptions}
    {rl : List WeatherOptions} {c m : WeatherOptions}
    (h : raceRainOf f = some rr) (hrl : f.forecast Sessions.Race = some rl)
    (hc : c ∈ rl) (hrain : 0 < c.rain_intensity)
    (hm : maxByKey WeatherOptions.rain_intensity rl = some m) :
    rr = some m := by
  rw [raceRainOf, hrl] at h
  dsimp only at h
  rw [hm] at h
  dsimp only at h
  have hpos : 0 < m.rain_intensity := lt_of_lt_of_le hrain ((maxByKey_spec hm).2 c hc)
  rw [if_pos hpos] at h
  injection h with h'
  exact h'.symm

/-- Inversion for the Practice pre-draw. -/
theorem practiceRainDraw_spec {t : WeatherOptions → ℚ} {rr : Option WeatherOptions}
    {fuel : ℕ} {rng : Rng} {pr : Option WeatherOptions × Rng}
    (h : practiceRainDraw t rr fuel rng = some pr) :
    (rr = none → pr = (none, rng)) ∧
      ∀ o, rr = some o →
        ∃ w rng1, generate_weather_option_in_group t o fuel rng = some (w, rng1) ∧
          pr = (some w, rng1) := by
  cases rr with
  | none =>
    rw [practiceRainDraw] at h
    injection h with h'
    exact ⟨fun _ => h'.symm, fun o ho => absurd ho (by simp)⟩
  | some o =>
    rw [practiceRainDraw] at h
    cases hg : generate_weather_option_in_group t o fuel rng with
    | none => rw [hg] at h; exact absurd h (by simp)
    | some p =>
      obtain ⟨w, rng1⟩ := p
      rw [hg] at h
      dsimp only at h
      injection h with h'
      refine ⟨fun hn => absurd hn (by simp), fun o' ho' => ?_⟩
      injection ho' with ho''
      subst ho''
      exact ⟨w, rng1, hg, h'.symm⟩

/-! ### Lemmas about the sanitization fold -/

/-- A fold of pointwise insertions leaves keys outside the list untouched. -/
theorem foldl_update_not_mem {g : WeatherOptions → ℚ} :
    ∀ (l : List WeatherOptions) (init : WeatherOptions → ℚ)
      (x : WeatherOptions), x ∉ l →
      l.foldl (fun m o => Function.update m o (g o)) init x = init x := by
  intro l
  induction l with
  | nil => intro init x _; rfl
  | cons a l ih =>
    intro init x hx
    rw [List.foldl_cons]
    rw [ih _ x (fun hmem => hx (List.mem_cons_of_mem a hmem))]
    exact Function.update_noteq
      (fun he => hx (by rw [he]; exact List.mem_cons_self a l)) _ _

/-- A fold of pointwise insertions assigns `g x` to every key in the list. -/
theorem foldl_update_mem {g : WeatherOptions → ℚ} :
    ∀ (l : List WeatherOptions) (init : WeatherOptions → ℚ)
      (x : WeatherOptions), x ∈ l →
      l.foldl (fun m o => Function.update m o (g o)) init x = g x := by
  intro l
  induction l with
  | nil => intro init x hx; exact absurd hx (List.not_mem_nil x)
  | cons a l ih =>
    intro init x hx
    rw [List.foldl_cons]
    by_cases hmem : x ∈ l
    · exact ih _ x hmem
    · have hxa : x = a := by
        rcases List.mem_cons.mp hx with h' | h'
        · exact h'
        · exact absurd h' hmem
      subst hxa
      rw [foldl_update_not_mem l _ x hmem]
      exact Function.update_same x (g x) init

/-- The sanitized table looks up the input where present and the fill value
elsewhere. -/
theorem buildInitialProbabilities_eq (cfg : Config) (o : WeatherOptions) :
    buildInitialProbabilities cfg o =
      (cfg.probabilities o).getD (remaining_options_probability cfg) := by
  have ho : o ∈ WeatherOptions.iter := by cases o <;> decide
  exact foldl_update_mem WeatherOptions.iter _ o ho

/-- Splitting a sum of defaulted lookups into the specified part and the
fill part. -/
theorem sum_map_getD_split (f : WeatherOptions → Option ℚ) (fill : ℚ) :
    ∀ l : List WeatherOptions,
      (l.map (fun o => (f o).getD fill)).sum =
        (l.map (fun o => (f o).getD 0)).sum +
          ((l.filter (fun o => !(f o).isSome)).length : ℚ) * fill := by
  intro l
  induction l with
  | nil => simp
  | cons a l ih =>
    rw [List.map_cons, List.sum_cons, List.map_cons, List.sum_cons, ih,
      List.filter_cons]
    cases hf : f a <;> simp [hf] <;> ring

/-- A list's length splits into the lengths of a filter and its complement. -/
theorem length_filter_add_length_filter_not (p : WeatherOptions → Bool) :
    ∀ l : List WeatherOptions,
      (l.filter p).length + (l.filter (fun o => !p o)).length = l.length := by
  intro l
  induction l with
  | nil => rfl
  | cons a l ih =>
    cases hp : p a <;> simp [List.filter_cons, hp] <;> omega

/-- The sum of the sanitized table: the specified weights plus the fill
weight for each missing entry. -/
theorem tableSum_build (cfg : Config) :
    tableSum (buildInitialProbabilities cfg) =
      accumulated_probability cfg +
        (missing_entries cfg : ℚ) * remaining_options_probability cfg := by
  rw [tableSum]
  rw [List.map_congr_left (fun o _ => buildInitialProbabilities_eq cfg o)]
  rw [sum_map_getD_split]
  rw [accumulated_probability]
  have hsplit := length_filter_add_length_filter_not
    (fun o => (cfg.probabilities o).isSome) WeatherOptions.iter
  have hlen : (WeatherOptions.iter.filter
      (fun o => !(cfg.probabilities o).isSome)).length =
      WeatherOptions.iter.length - configProbLen cfg := by
    rw [configProbLen]
    omega
  rw [hlen, missing_entries]

/-- When the user weights exceed 1, the fill weight is 0 and the sanitized
table still sums to the user total. -/
theorem tableSum_build_of_over (cfg : Config)
    (hover : 1 < accumulated_probability cfg) :
    tableSum (buildInitialProbabilities cfg) = accumulated_probability cfg := by
  have hrem : remaining_probability cfg = 0 := by
    rw [remaining_probability, qclamp]
    have h1 : 1 - accumulated_probability cfg < 0 := by linarith
    rw [min_eq_left (by linarith : 1 - accumulated_probability cfg ≤ 1)]
    exact max_eq_left (le_of_lt h1)
  have hfill : remaining_options_probability cfg = 0 := by
    rw [remaining_options_probability]
    by_cases hm : missing_entries cfg ≠ 0
    · rw [if_pos hm, hrem, zero_div]
    · rw [if_neg hm]
  rw [tableSum_build, hfill, mul_zero, add_zero]

/-! ### Concrete inputs used to instantiate the theorems -/

/-- A deterministic random source: every rational draw is 0 and every
natural-number draw is 0. -/
def rng0 : Rng := { floats := fun _ => 0, nats := fun _ => 0, fidx := 0, nidx := 0 }

/-- A table with all weight on `Clear`. -/
def tClear : WeatherOptions → ℚ :=
  fun o => if o = WeatherOptions.Clear then 1 else 0

/-- A forecaster whose table puts all weight on `Clear`, two slots per
session. -/
def stClear : WeatherForecaster :=
  { probabilities := tClear, weather_slots := fun _ => 2 }

/-- A table with all weight on `Storm`. -/
def tStorm : WeatherOptions → ℚ :=
  fun o => if o = WeatherOptions.Storm then 1 else 0

/-- A forecaster whose table puts all weight on `Storm`, one slot per
session. -/
def stStorm : WeatherForecaster :=
  { probabilities := tStorm, weather_slots := fun _ => 1 }

/-- A configuration whose single specified weight already exceeds 1. -/
def cfgOver : Config :=
  { probabilities := fun o => if o = WeatherOptions.Clear then some 2 else none
    weather_slots := fun _ => none }

/-- A configuration giving `Clear` weight 1 and leaving the rest
unspecified. -/
def cfgClear : Config :=
  { probabilities := fun o => if o = WeatherOptions.Clear then some 1 else none
    weather_slots := fun _ => none }

/-! ### Claims -/

/-- C1: the claim states that an input whose weights sum to more than 1.0
is auto-corrected by normalization without failing, i.e. that the table
entering `normalize_probabilities` always sums to at most 1.0.  The code
violates this: for any over-1.0 input the fill weight is clamped to 0, the
sanitized table still sums to the user total, and the `assert!(sum <= 1.0)`
inside `normalize_probabilities` fires — construction panics instead of
normalizing, contradicting the warning the code itself prints. -/
theorem C1_overflow_panics (cfg : Config)
    (hover : 1 < accumulated_probability cfg) :
    1 < tableSum (buildInitialProbabilities cfg) ∧
      WeatherForecaster.new cfg = none := by
  have hsum := tableSum_build_of_over cfg hover
  refine ⟨hsum ▸ hover, ?_⟩
  rw [WeatherForecaster.new, normalize_probabilities]
  simp only [hsum]
  rw [if_neg (not_le.mpr hover)]
  rfl

/-- Witness for C1 at the concrete failing input
`probabilities = {Clear: 2.0}`. -/
theorem C1_overflow_panics_witness :
    1 < tableSum (buildInitialProbabilities cfgOver) ∧
      WeatherForecaster.new cfgOver = none :=
  C1_overflow_panics cfgOver
    (by
      have h : accumulated_probability cfgOver = 2 := by with_unfolding_all rfl
      rw [h]; norm_num)

/-- C4: a session sampled with rain disallowed never contains a condition
with positive rain intensity, because every underlying draw rejects wet
candidates. -/
theorem C4_no_rain_when_disallowed (t : WeatherOptions → ℚ) (slots fuel : ℕ)
    (rng : Rng) (l : List WeatherOptions) (rng' : Rng)
    (h : generate_single_session_forecast t slots false fuel rng = some (l, rng')) :
    ∀ c ∈ l, c.rain_intensity = 0 :=
  (generate_single_session_forecast_spec h).2.2 rfl

/-- Witness for C4: a dry two-slot draw from the all-Clear table. -/
theorem C4_no_rain_when_disallowed_witness :
    WeatherOptions.rain_intensity WeatherOptions.Clear = 0 :=
  C4_no_rain_when_disallowed tClear 2 5 rng0
    [WeatherOptions.Clear, WeatherOptions.Clear]
    { floats := fun _ => 0, nats := fun _ => 0, fidx := 2, nidx := 0 }
    (by with_unfolding_all rfl)
    WeatherOptions.Clear (by decide)

/-- C5: with enough distinct usable options (`slot_count` at most the
usable count) a session draw has exactly `slot_count` pairwise-distinct
entries; otherwise the sampler is exactly the draw-with-replacement
fallback, which returns `slot_count` draws in which duplicates can in fact
appear (final conjunct: a concrete duplicated output). -/
theorem C5_session_duplicates_policy (t : WeatherOptions → ℚ)
    (slots : ℕ) (b : Bool) (fuel : ℕ) (rng : Rng) :
    (slots ≤ get_available_weather_options t b →
      ∀ l rng', generate_single_session_forecast t slots b fuel rng = some (l, rng') →
        l.length = slots ∧ l.Nodup) ∧
    (¬ slots ≤ get_available_weather_options t b →
      generate_single_session_forecast t slots b fuel rng =
        drawWithReplacement t b slots fuel rng ∧
      ∀ l rng', drawWithReplacement t b slots fuel rng = some (l, rng') →
        l.length = slots) ∧
    ∃ l rng', generate_single_session_forecast tClear 2 false 5 rng0 =
        some (l, rng') ∧ ¬ l.Nodup := by
  refine ⟨?_, ?_, ?_⟩
  · intro hle l rng' h
    obtain ⟨hlen, hnd, _⟩ := generate_single_session_forecast_spec h
    exact ⟨hlen, hnd hle⟩
  · intro hnle
    refine ⟨by rw [generate_single_session_forecast, if_neg hnle], ?_⟩
    intro l rng' h
    exact (drawWithReplacement_spec h).1
  · refine ⟨[WeatherOptions.Clear, WeatherOptions.Clear],
      { floats := fun _ => 0, nats := fun _ => 0, fidx := 2, nidx := 0 },
      by with_unfolding_all rfl, by decide⟩

/-- Witness for C5: the distinct branch at a one-slot draw from the
all-Clear table. -/
theorem C5_session_duplicates_policy_witness :
    ([WeatherOptions.Clear] : List WeatherOptions).length = 1 ∧
      ([WeatherOptions.Clear] : List WeatherOptions).Nodup :=
  (C5_session_duplicates_policy tClear 1 false 5 rng0).1
    (le_of_eq (by with_unfolding_all rfl :
      get_available_weather_options tClear false = 1).symm)
    [WeatherOptions.Clear]
    { floats := fun _ => 0, nats := fun _ => 0, fidx := 1, nidx := 0 }
    (by with_unfolding_all rfl)

/-- C9: if no cumulative weight ever exceeds the drawn number (for
non-negative weights it suffices that the whole table sums to at most the
draw), the catalog walk falls back to its initializer `Clear`, and since
`Clear` is dry the draw returns it even with rain disallowed. -/
theorem C9_fallback_clear (t : WeatherOptions → ℚ) (fuel : ℕ) (rng : Rng)
    (hnn : ∀ o, 0 ≤ t o) (hr : tableSum t ≤ rng.floats rng.fidx) :
    generate_weather_option t false (fuel + 1) rng =
      some (WeatherOptions.Clear, { rng with fidx := rng.fidx + 1 }) := by
  have hsel : ∀ (l : List WeatherOptions) (cur : ℚ),
      cur + (l.map t).sum ≤ rng.floats rng.fidx →
      selectOption t (rng.floats rng.fidx) l cur = WeatherOptions.Clear := by
    intro l
    induction l with
    | nil => intro cur _; rw [selectOption]
    | cons o rest ih =>
      intro cur hcur
      show (if rng.floats rng.fidx < cur + t o then o
        else selectOption t (rng.floats rng.fidx) rest (cur + t o)) =
        WeatherOptions.Clear
      have hrest : 0 ≤ (rest.map t).sum :=
        List.sum_nonneg (by
          intro x hx
          obtain ⟨y, _, hy⟩ := List.mem_map.mp hx
          exact hy ▸ hnn y)
      rw [List.map_cons, List.sum_cons] at hcur
      rw [if_neg (not_lt.mpr (by linarith))]
      exact ih (cur + t o) (by linarith)
  rw [generate_weather_option]
  have hclear : selectOption t rng.nextFloat.1 WeatherOptions.iter 0 =
      WeatherOptions.Clear := by
    apply hsel
    rw [zero_add]
    exact hr
  rw [hclear]
  rfl

/-- Witness for C9 at the all-zero table with the all-zero stream. -/
theorem C9_fallback_clear_witness :
    generate_weather_option (fun _ => (0 : ℚ)) false 1 rng0 =
      some (WeatherOptions.Clear,
        { floats := fun _ => 0, nats := fun _ => 0, fidx := 1, nidx := 0 }) :=
  C9_fallback_clear (fun _ => 0) 0 rng0 (fun _ => le_refl 0)
    (by with_unfolding_all rfl)

/-- C10: every catalog group containing a wet condition contains only wet
conditions, and hence the group-constrained draw seeded by a wet condition
always returns a wet condition. -/
theorem C10_rain_groups_closed :
    (∀ c : WeatherOptions, 0 < c.rain_intensity →
      ∀ d ∈ c.get_group, 0 < d.rain_intensity) ∧
    ∀ (t : WeatherOptions → ℚ) (w : WeatherOptions) (fuel : ℕ) (rng : Rng)
      (o : WeatherOptions) (rng' : Rng), 0 < w.rain_intensity →
      generate_weather_option_in_group t w fuel rng = some (o, rng') →
      0 < o.rain_intensity := by
  have hgroups : ∀ c : WeatherOptions, 0 < c.rain_intensity →
      ∀ d ∈ c.get_group, 0 < d.rain_intensity := by
    intro c
    cases c <;> decide
  exact ⟨hgroups, fun t w fuel rng o rng' hw h =>
    hgroups w hw o (generate_weather_option_in_group_mem h)⟩

/-- Witness for C10: the in-group draw seeded by `Storm` from the all-Storm
table returns `Storm`, which is wet. -/
theorem C10_rain_groups_closed_witness :
    (0 : ℕ) < WeatherOptions.rain_intensity WeatherOptions.Storm :=
  C10_rain_groups_closed.2 tStorm WeatherOptions.Storm 3 rng0
    WeatherOptions.Storm
    { floats := fun _ => 0, nats := fun _ => 0, fidx := 1, nidx := 0 }
    (by decide) (by with_unfolding_all rfl)

/-- C8: the sanitized table assigns to each catalog condition its input
value when present, and otherwise the fill value
`clamp(1 - accumulated, 0, 1) / missing` when conditions are missing, and
0 when every condition was specified. -/
theorem C8_sanitized_table (cfg : Config) (o : WeatherOptions) :
    buildInitialProbabilities cfg o =
      (cfg.probabilities o).getD (remaining_options_probability cfg) ∧
    (0 < missing_entries cfg →
      remaining_options_probability cfg =
        qclamp (1 - accumulated_probability cfg) 0 1 /
          (missing_entries cfg : ℚ)) ∧
    (missing_entries cfg = 0 → remaining_options_probability cfg = 0) := by
  refine ⟨buildInitialProbabilities_eq cfg o, ?_, ?_⟩
  · intro hpos
    rw [remaining_options_probability, if_pos (Nat.pos_iff_ne_zero.mp hpos),
      remaining_probability]
  · intro hz
    rw [remaining_options_probability, if_neg (by rw [hz]; exact fun h => h rfl)]

/-- Witness for C8 at the over-1.0 configuration: `Clear` keeps its
specified weight 2, the missing count is positive, and the fill value is
the clamped remainder divided by the missing count. -/
theorem C8_sanitized_table_witness :
    buildInitialProbabilities cfgOver WeatherOptions.Clear =
      ((cfgOver.probabilities WeatherOptions.Clear).getD
        (remaining_options_probability cfgOver)) ∧
    remaining_options_probability cfgOver =
      qclamp (1 - accumulated_probability cfgOver) 0 1 /
        (missing_entries cfgOver : ℚ) :=
  ⟨(C8_sanitized_table cfgOver WeatherOptions.Clear).1,
    (C8_sanitized_table cfgOver WeatherOptions.Clear).2.1 (by decide)⟩

/-- C2: in any produced forecast, if the Race entry (when present) contains
no wet condition — in particular when Race was not requested — then the
Qualifying entry, when present, contains no wet condition either. -/
theorem C2_quali_dry_when_race_dry (st : WeatherForecaster)
    (sessions : List Sessions) (fuel : ℕ) (rng : Rng) (f : WeatherForecast)
    (rng' : Rng) (h : generate_forecast st sessions fuel rng = some (f, rng'))
    (hdry : ∀ l, f.forecast Sessions.Race = some l →
      ∀ c ∈ l, c.rain_intensity = 0)
    (ql : List WeatherOptions)
    (hq : f.forecast Sessions.Qualifying = some ql) :
    ∀ c ∈ ql, c.rain_intensity = 0 := by
  rw [generate_forecast] at h
  rcases Option.bind_eq_some.mp h with ⟨p1, h1, h⟩
  rcases Option.bind_eq_some.mp h with ⟨rr, h2, h⟩
  rcases Option.bind_eq_some.mp h with ⟨p2, h3, h⟩
  rcases Option.bind_eq_some.mp h with ⟨pr, h4, h5⟩
  obtain ⟨hpp, _, _⟩ := practicePhase_spec h5
  obtain ⟨hqp, hqin, hqout⟩ := qualiPhase_spec h3
  have hfRace : f.forecast Sessions.Race = p1.1.forecast Sessions.Race := by
    rw [hpp Sessions.Race (by simp), hqp Sessions.Race (by simp)]
  have hdry1 : ∀ l, p1.1.forecast Sessions.Race = some l →
      ∀ c ∈ l, c.rain_intensity = 0 := by
    intro l hl
    exact hdry l (hfRace ▸ hl)
  have hrrn : rr = none := raceRainOf_none_of_dry h2 hdry1
  subst hrrn
  have hfQ : f.forecast Sessions.Qualifying = p2.1.forecast Sessions.Qualifying :=
    hpp Sessions.Qualifying (by simp)
  by_cases hqs : Sessions.Qualifying ∈ sessions
  · obtain ⟨l, hgen, hfq2⟩ := hqin hqs
    have hlq : some l = some ql := by rw [← hfq2, ← hfQ, hq]
    injection hlq with hlq'
    subst hlq'
    exact (generate_single_session_forecast_spec hgen).2.2 rfl
  · have hp21 : p2 = p1 := hqout hqs
    obtain ⟨hq1, _, _, _⟩ := racePhase_spec h1
    rw [hfQ, hp21, hq1] at hq
    exact absurd hq (by simp)

/-- Witness for C2: an all-Clear two-slot forecast for Qualifying and Race. -/
theorem C2_quali_dry_when_race_dry_witness :
    WeatherOptions.rain_intensity WeatherOptions.Clear = 0 := by
  have hrun : generate_forecast stClear [Sessions.Qualifying, Sessions.Race]
      10 rng0 = some
        ((WeatherForecast.empty.insert Sessions.Race
            [WeatherOptions.Clear, WeatherOptions.Clear]).insert
          Sessions.Qualifying [WeatherOptions.Clear, WeatherOptions.Clear],
        { floats := fun _ => 0, nats := fun _ => 0, fidx := 4, nidx := 0 }) := by
    with_unfolding_all rfl
  refine C2_quali_dry_when_race_dry stClear
    [Sessions.Qualifying, Sessions.Race] 10 rng0 _ _ hrun ?_
    [WeatherOptions.Clear, WeatherOptions.Clear] (by decide)
    WeatherOptions.Clear (by decide)
  intro l hl
  have he : ((WeatherForecast.empty.insert Sessions.Race
      [WeatherOptions.Clear, WeatherOptions.Clear]).insert
        Sessions.Qualifying
        [WeatherOptions.Clear, WeatherOptions.Clear]).forecast Sessions.Race =
      some [WeatherOptions.Clear, WeatherOptions.Clear] := by decide
  rw [he] at hl
  injection hl with hl'
  subst hl'
  decide

/-- C3: when Race and Practice are both requested and the Race entry
contains a wet condition, the Practice entry contains at least one member
of the group of the Race condition of maximum rain intensity: the forced
pre-drawn condition overwrites the last slot and the shuffle only permutes
the sequence. -/
theorem C3_practice_has_group_member (st : WeatherForecaster)
    (sessions : List Sessions) (fuel : ℕ) (rng : Rng) (f : WeatherForecast)
    (rng' : Rng) (h : generate_forecast st sessions fuel rng = some (f, rng'))
    (_hR : Sessions.Race ∈ sessions) (hP : Sessions.Practice ∈ sessions)
    (rl : List WeatherOptions) (hrl : f.forecast Sessions.Race = some rl)
    (c : WeatherOptions) (hc : c ∈ rl) (hrain : 0 < c.rain_intensity)
    (m : WeatherOptions)
    (hm : maxByKey WeatherOptions.rain_intensity rl = some m) :
    ∃ pl, f.forecast Sessions.Practice = some pl ∧
      ∃ w ∈ pl, w ∈ m.get_group := by
  rw [generate_forecast] at h
  rcases Option.bind_eq_some.mp h with ⟨p1, h1, h⟩
  rcases Option.bind_eq_some.mp h with ⟨rr, h2, h⟩
  rcases Option.bind_eq_some.mp h with ⟨p2, h3, h⟩
  rcases Option.bind_eq_some.mp h with ⟨pr, h4, h5⟩
  obtain ⟨hpp, hpin, _⟩ := practicePhase_spec h5
  obtain ⟨hqp, _, _⟩ := qualiPhase_spec h3
  have hfRace : f.forecast Sessions.Race = p1.1.forecast Sessions.Race := by
    rw [hpp Sessions.Race (by simp), hqp Sessions.Race (by simp)]
  have hrl1 : p1.1.forecast Sessions.Race = some rl := hfRace ▸ hrl
  have hrrm : rr = some m := raceRainOf_some_of_rain h2 hrl1 hc hrain hm
  subst hrrm
  obtain ⟨_, hsome⟩ := practiceRainDraw_spec h4
  obtain ⟨w, rng1, hgin, hpr⟩ := hsome m rfl
  have hw : w ∈ m.get_group := generate_weather_option_in_group_mem hgin
  obtain ⟨l, rng2, hgen, hdisj⟩ := hpin hP
  rcases hdisj with ⟨hprn, _, _⟩ | ⟨w', hprw, hnil, hfP, _⟩
  · rw [hpr] at hprn
    exact absurd hprn (by simp)
  · rw [hpr] at hprw
    injection hprw with hprw'
    subst hprw'
    refine ⟨(sliceShuffle (l.dropLast ++ [w]) rng2).1, hfP, w, ?_, hw⟩
    exact (sliceShuffle_perm _ _).mem_iff.mpr
      (List.mem_append.mpr (Or.inr (List.mem_singleton_self w)))

/-- Witness for C3: the all-Storm forecaster with Race and Practice
requested forces a `Storm`-group member into Practice. -/
theorem C3_practice_has_group_member_witness :
    (0 : ℕ) < WeatherOptions.rain_intensity WeatherOptions.Storm ∧
      ∃ pl, ((WeatherForecast.empty.insert Sessions.Race
          [WeatherOptions.Storm]).insert Sessions.Practice
            [WeatherOptions.Storm]).forecast Sessions.Practice = some pl ∧
        ∃ w ∈ pl, w ∈ WeatherOptions.Storm.get_group := by
  have hrun : generate_forecast stStorm [Sessions.Practice, Sessions.Race]
      9 rng0 = some
        ((WeatherForecast.empty.insert Sessions.Race
            [WeatherOptions.Storm]).insert Sessions.Practice
          [WeatherOptions.Storm],
        { floats := fun _ => 0, nats := fun _ => 0, fidx := 3, nidx := 1 }) := by
    with_unfolding_all rfl
  exact ⟨by decide,
    C3_practice_has_group_member stStorm [Sessions.Practice, Sessions.Race]
      9 rng0 _ _ hrun (by decide) (by decide) [WeatherOptions.Storm]
      (by decide) WeatherOptions.Storm (by decide) (by decide)
      WeatherOptions.Storm (by decide)⟩

/-- C6 counterexample: with only Race requested and an all-Storm table, the
claim predicts the random source ends where the Race phase alone left it;
in fact the in-group Practice pre-draw still runs (the source performs it
before checking that Practice was requested) and consumes one extra draw
(cursor 2 instead of 1). -/
theorem C6_predraw_counterexample :
    (generate_forecast stStorm [Sessions.Race] 5 rng0).map
        (fun p => p.2.fidx) ≠
      (generate_single_session_forecast stStorm.probabilities
          (stStorm.weather_slots Sessions.Race) true 5 rng0).map
        (fun p => p.2.fidx) := by
  have h1 : (generate_forecast stStorm [Sessions.Race] 5 rng0).map
      (fun p => p.2.fidx) = some 2 := by with_unfolding_all rfl
  have h2 : (generate_single_session_forecast stStorm.probabilities
      (stStorm.weather_slots Sessions.Race) true 5 rng0).map
      (fun p => p.2.fidx) = some 1 := by with_unfolding_all rfl
  rw [h1, h2]
  simp

/-- C6 amended: the Practice pre-draw is governed by the Race outcome, not
by whether Practice was requested — it runs whenever the race rained, even
with Practice absent (see the counterexample); only when the race produced
no rain does a Practice-less call leave the forecast and the random source
exactly as the Race and Qualifying phases left them. -/
theorem C6_no_predraw_when_no_rain (st : WeatherForecaster)
    (sessions : List Sessions) (fuel : ℕ) (rng : Rng)
    (p1 : WeatherForecast × Rng)
    (hP : Sessions.Practice ∉ sessions)
    (h1 : racePhase st sessions fuel rng = some p1)
    (h2 : raceRainOf p1.1 = some none) :
    generate_forecast st sessions fuel rng =
      qualiPhase st sessions false fuel p1 := by
  rw [generate_forecast, h1, Option.some_bind, h2, Option.some_bind]
  cases hq : qualiPhase st sessions (Option.isSome none) fuel p1 with
  | none =>
    have hq' : qualiPhase st sessions false fuel p1 = none := hq
    rw [hq']
    rfl
  | some p2 =>
    have hq' : qualiPhase st sessions false fuel p1 = some p2 := hq
    rw [hq', Option.some_bind, practiceRainDraw, Option.some_bind,
      practicePhase, if_neg hP]

/-- Witness for C6 amended: the all-Clear forecaster with only Race
requested. -/
theorem C6_no_predraw_when_no_rain_witness :
    generate_forecast stClear [Sessions.Race] 10 rng0 =
      qualiPhase stClear [Sessions.Race] false 10
        (WeatherForecast.empty.insert Sessions.Race
            [WeatherOptions.Clear, WeatherOptions.Clear],
          { floats := fun _ => 0, nats := fun _ => 0, fidx := 2, nidx := 0 }) :=
  C6_no_predraw_when_no_rain stClear [Sessions.Race] 10 rng0 _
    (by decide) (by with_unfolding_all rfl) (by decide)

/-- C7: slot counts are the configured ones merged with the defaults
{Practice 4, Qualifying 2, Race 4} and clamped into [1, 4]; and every
produced forecast has exactly one entry per requested session — none for
unrequested sessions — whose sequence length is that session's slot
count. -/
theorem C7_entries_and_slots :
    (∀ (cfg : Config) (st : WeatherForecaster),
      WeatherForecaster.new cfg = some st → ∀ s : Sessions,
        st.weather_slots s =
          min 4 (max 1 ((cfg.weather_slots s).getD (defaultWeatherSlots s))) ∧
        1 ≤ st.weather_slots s ∧ st.weather_slots s ≤ 4) ∧
    ∀ (st : WeatherForecaster) (sessions : List Sessions) (fuel : ℕ)
      (rng : Rng) (f : WeatherForecast) (rng' : Rng),
      generate_forecast st sessions fuel rng = some (f, rng') →
      ∀ s : Sessions,
        (s ∈ sessions → ∃ l, f.forecast s = some l ∧
          l.length = st.weather_slots s) ∧
        (s ∉ sessions → f.forecast s = none) := by
  constructor
  · intro cfg st hnew s
    rw [WeatherForecaster.new] at hnew
    rcases Option.map_eq_some'.mp hnew with ⟨t, _, hst⟩
    have hw : st.weather_slots s = sanitizeWeatherSlots cfg s := by
      rw [← hst]
    rw [hw, sanitizeWeatherSlots]
    exact ⟨rfl, le_min (by norm_num) (le_max_left 1 _), min_le_left 4 _⟩
  · intro st sessions fuel rng f rng' h s
    rw [generate_forecast] at h
    rcases Option.bind_eq_some.mp h with ⟨p1, h1, h⟩
    rcases Option.bind_eq_some.mp h with ⟨rr, h2, h⟩
    rcases Option.bind_eq_some.mp h with ⟨p2, h3, h⟩
    rcases Option.bind_eq_some.mp h with ⟨pr, h4, h5⟩
    obtain ⟨hq1, hp1, hrin, hrout⟩ := racePhase_spec h1
    obtain ⟨hqp, hqin, hqout⟩ := qualiPhase_spec h3
    obtain ⟨hpp, hpin, hpout⟩ := practicePhase_spec h5
    cases s with
    | Race =>
      have hfR : f.forecast Sessions.Race = p1.1.forecast Sessions.Race := by
        rw [hpp Sessions.Race (by simp), hqp Sessions.Race (by simp)]
      constructor
      · intro hs
        obtain ⟨l, hgen, hfl⟩ := hrin hs
        exact ⟨l, hfR ▸ hfl,
          (generate_single_session_forecast_spec hgen).1⟩
      · intro hs
        rw [hfR, hrout hs]
        rfl
    | Qualifying =>
      have hfQ : f.forecast Sessions.Qualifying =
          p2.1.forecast Sessions.Qualifying :=
        hpp Sessions.Qualifying (by simp)
      constructor
      · intro hs
        obtain ⟨l, hgen, hfl⟩ := hqin hs
        exact ⟨l, hfQ ▸ hfl,
          (generate_single_session_forecast_spec hgen).1⟩
      · intro hs
        rw [hfQ, hqout hs, hq1]
    | Practice =>
      constructor
      · intro hs
        obtain ⟨l, rng1, hgen, hdisj⟩ := hpin hs
        have hlen : l.length = st.weather_slots Sessions.Practice :=
          (generate_single_session_forecast_spec hgen).1
        rcases hdisj with ⟨_, hfl, _⟩ | ⟨w, _, hnil, hfl, _⟩
        · exact ⟨l, hfl, hlen⟩
        · refine ⟨(sliceShuffle (l.dropLast ++ [w]) rng1).1, hfl, ?_⟩
          rw [(sliceShuffle_perm _ _).length_eq, List.length_append,
            List.length_dropLast, List.length_singleton]
          have hpos : 0 < l.length := List.length_pos.mpr hnil
          omega
      · intro hs
        have hf2 : f = p2.1 := congrArg Prod.fst (hpout hs)
        rw [hf2, hqp Sessions.Practice (by simp), hp1]

/-- Witness for C7: construction from the all-Clear configuration uses the
default slot counts, and a Qualifying-only forecast has no Race entry. -/
theorem C7_entries_and_slots_witness :
    (1 : ℕ) ≤ min 4 (max 1 ((cfgClear.weather_slots Sessions.Race).getD
        (defaultWeatherSlots Sessions.Race))) ∧
      ((WeatherForecast.empty.insert Sessions.Qualifying
        [WeatherOptions.Clear, WeatherOptions.Clear]).forecast
          Sessions.Race = none) := by
  have hnew : WeatherForecaster.new cfgClear = some
      { probabilities := fun o =>
          buildInitialProbabilities cfgClear o *
            (1 / tableSum (buildInitialProbabilities cfgClear))
        weather_slots := sanitizeWeatherSlots cfgClear } := by
    with_unfolding_all rfl
  have hslots := (C7_entries_and_slots.1 cfgClear _ hnew Sessions.Race).2.1
  have hrun : generate_forecast stClear [Sessions.Qualifying] 10 rng0 = some
      (WeatherForecast.empty.insert Sessions.Qualifying
          [WeatherOptions.Clear, WeatherOptions.Clear],
        { floats := fun _ => 0, nats := fun _ => 0, fidx := 2, nidx := 0 }) := by
    with_unfolding_all rfl
  have hnone := (C7_entries_and_slots.2 stClear [Sessions.Qualifying] 10 rng0
    _ _ hrun Sessions.Race).2 (by decide)
  have hsan : sanitizeWeatherSlots cfgClear Sessions.Race =
      min 4 (max 1 ((cfgClear.weather_slots Sessions.Race).getD
        (defaultWeatherSlots Sessions.Race))) := rfl
  exact ⟨hsan ▸ hslots, hnone⟩
